import Mathlib

/-!
Verification development for the magic-mirror repository.

The numeric audio state of the SiriOrb component and its animation loops are
embedded over the rationals; the wake-word / session logic of HomeClient is
embedded as an explicit event-step function on a record of its React state,
with the condition-driven effects applied after each event (React re-runs
them whenever their dependencies change); the token-minting HTTP handlers are
embedded as total functions from their inputs (environment, parsed body,
random suffixes, outcome of the JWT signing) to a status/payload pair.
-/

namespace MagicMirror

/-! ## SiriOrb audio model (src/components/smoothui/siri-orb/index.tsx) -/

/-- Source line 73: `const historySize = 12`. -/
def historySize : Nat := 12

/-- Source line 122: `analyserRef.current.fftSize = 256`. -/
def fftSize : Nat := 256

/-- Source line 78: `analyserRef.current.frequencyBinCount` equals half of fftSize. -/
def frequencyBinCount : Nat := fftSize / 2

/-- Source line 81: `const average = dataArray.reduce((a, b) => a + b, 0) / dataArray.length`. -/
def average (l : List ℚ) : ℚ := l.sum / l.length

/-- Source line 82:
`const normalizedLevel = Math.min(average / 128, 1) * sensitivity`. -/
def normalizedLevel (avg sensitivity : ℚ) : ℚ := min (avg / 128) 1 * sensitivity

/-- Raw per-frame level emitted by the extractor: source lines 78-82 applied to
the frequency bins read from the analyser. -/
def rawLevel (bins : List ℚ) (sensitivity : ℚ) : ℚ :=
  normalizedLevel (average bins) sensitivity

/-- Source lines 85-88: push the sample, then shift the oldest out when the
length exceeds historySize.
`historyRef.current.push(normalizedLevel); if (historyRef.current.length > historySize) historyRef.current.shift()`. -/
def pushSample (h : List ℚ) (x : ℚ) : List ℚ :=
  let h2 := h ++ [x]
  if historySize < h2.length then h2.tail else h2

/-- Audio state owned by the SiriOrb component: the moving-average history
buffer (historyRef) and the smoothed level (smoothedLevelRef). -/
structure OrbAudio where
  history : List ℚ
  smoothed : ℚ
deriving DecidableEq

/-- Source lines 85-96, given the already computed raw sample: append to the
history, compute the moving average, and blend:
`smoothedLevelRef.current = smoothedLevelRef.current * smoothing + targetLevelRef.current * (1 - smoothing)`. -/
def smootherStep (smoothing raw : ℚ) (st : OrbAudio) : OrbAudio :=
  let h := pushSample st.history raw
  let movingAverage := average h
  { history := h, smoothed := st.smoothed * smoothing + movingAverage * (1 - smoothing) }

/-- One pass of the analyzeAudio callback body (source lines 75-101):
read the bins, compute the raw normalized level, and run the smoother. -/
def analyzeStep (sensitivity smoothing : ℚ) (bins : List ℚ) (st : OrbAudio) : OrbAudio :=
  smootherStep smoothing (rawLevel bins sensitivity) st

/-- One pass of the fadeOut callback body (source lines 106-115): multiply the
smoothed level by 0.98; if the result is above 0.001 keep it and request
another frame (second component true), otherwise snap to exactly 0 and stop. -/
def fadeStep (l : ℚ) : ℚ × Bool :=
  let l2 := l * (98 / 100)
  if 1 / 1000 < l2 then (l2, true) else (0, false)

/-- The decay loop iterated for up to n frames: it keeps stepping while the
fadeOut body rescheduled itself, and stops (returning the final level) the
first time the body snapped to 0. -/
def fadeRun : Nat → ℚ → ℚ
  | 0, l => l
  | n + 1, l =>
    let s := fadeStep l
    if s.2 then fadeRun n s.1 else s.1

/-- Source line 198: `const scale = minScale + audioLevel * (maxScale - minScale)`. -/
def scale (minScale maxScale audioLevel : ℚ) : ℚ :=
  minScale + audioLevel * (maxScale - minScale)

/-- Moving-average history produced by appending a whole sequence of raw
samples into an initially empty buffer. -/
def runHistory (xs : List ℚ) : List ℚ := xs.foldl pushSample []

/-- Iterated smoother under a constant raw input x (the raw sample is held at
x for every frame), starting from a given audio state. -/
def constRun (smoothing x : ℚ) (st : OrbAudio) : Nat → OrbAudio
  | 0 => st
  | n + 1 => smootherStep smoothing x (constRun smoothing x st n)

/-! ## SiriOrb frame scheduling model (the useEffect at source lines 103-138)

A per-frame callback is either the live sampling loop analyzeAudio or the
decay loop fadeOut. requestAnimationFrame is modelled as appending an
(id, kind) pair to a pending queue and storing the id in animationFrameRef;
cancelAnimationFrame removes the id stored in the ref from the queue. The
attach branch of the effect returns a cleanup (which cancels the ref and
closes the audio context); the detach branch returns no cleanup. React runs
the cleanup of the previous effect, when one was registered, before running
the next effect body. -/

/-- Kind of a scheduled per-frame callback. -/
inductive FrameKind
  | analyze
  | fade
deriving DecidableEq

/-- State of the frame-scheduling model of one SiriOrb instance. -/
structure OrbSched where
  pending : List (Nat × FrameKind)
  nextId : Nat
  frameRef : Option Nat
  hasCleanup : Bool
  audio : OrbAudio
deriving DecidableEq

/-- Effect of `cancelAnimationFrame(animationFrameRef.current)` (source
lines 131-133): drop the callback whose id is stored in the ref. -/
def cancelFrame (s : OrbSched) : OrbSched :=
  match s.frameRef with
  | none => s
  | some i => { s with pending := s.pending.filter (fun p => p.1 ≠ i) }

/-- Effect of `animationFrameRef.current = requestAnimationFrame(cb)`:
enqueue a fresh callback of the given kind and remember its id. -/
def scheduleFrame (k : FrameKind) (s : OrbSched) : OrbSched :=
  { s with
    pending := s.pending ++ [(s.nextId, k)]
    frameRef := some s.nextId
    nextId := s.nextId + 1 }

/-- One run of the analyzeAudio callback (source lines 75-101): update the
audio state from the bins and schedule the next analyze frame. -/
def runAnalyze (sens sm : ℚ) (bins : List ℚ) (s : OrbSched) : OrbSched :=
  scheduleFrame .analyze { s with audio := analyzeStep sens sm bins s.audio }

/-- One run of the fadeOut callback (source lines 106-115): decay the level;
schedule the next fade frame only while the level stays above 0.001. -/
def runFade (s : OrbSched) : OrbSched :=
  let f := fadeStep s.audio.smoothed
  let s2 := { s with audio := { s.audio with smoothed := f.1 } }
  if f.2 then scheduleFrame .fade s2 else s2

/-- React running the cleanup returned by the previous effect run: the attach
branch registered one (cancel the ref), the detach branch did not. -/
def effectCleanup (s : OrbSched) : OrbSched :=
  if s.hasCleanup then cancelFrame s else s

/-- One run of the useEffect at source lines 103-138, after the props changed
to attached (audioStream present and isListening) or detached. The previous
cleanup runs first. The detach branch (lines 104-118) clears the history and
starts the decay loop, registering no cleanup; the attach branch (lines
120-137) starts the sampling loop and registers the cancelling cleanup. -/
def effectRun (sens sm : ℚ) (attached : Bool) (bins : List ℚ) (s : OrbSched) : OrbSched :=
  let s1 := effectCleanup s
  if attached then
    { runAnalyze sens sm bins s1 with hasCleanup := true }
  else
    { runFade { s1 with audio := { s1.audio with history := [] } } with hasCleanup := false }

/-- Firing a pending animation-frame callback by id: remove it from the queue
and run its body. Ids not in the queue (already cancelled) do nothing. -/
def fireFrame (sens sm : ℚ) (bins : List ℚ) (i : Nat) (s : OrbSched) : OrbSched :=
  match s.pending.find? (fun p => p.1 = i) with
  | none => s
  | some (_, k) =>
    let s2 := { s with pending := s.pending.filter (fun p => p.1 ≠ i) }
    match k with
    | .analyze => runAnalyze sens sm bins s2
    | .fade => runFade s2

/-- External events seen by the scheduling model: an effect run after a prop
change, or the browser firing a pending frame callback. -/
inductive OrbEvent
  | effect (attached : Bool) (bins : List ℚ)
  | frame (i : Nat) (bins : List ℚ)

/-- Step of the scheduling model. -/
def orbStep (sens sm : ℚ) (s : OrbSched) : OrbEvent → OrbSched
  | .effect a bins => effectRun sens sm a bins s
  | .frame i bins => fireFrame sens sm bins i s

/-- Initial state of a freshly mounted SiriOrb: empty queue, level 0. -/
def orbInit : OrbSched :=
  { pending := [], nextId := 0, frameRef := none, hasCleanup := false
    audio := { history := [], smoothed := 0 } }

/-- Run of the scheduling model over a sequence of events. -/
def orbRun (sens sm : ℚ) (es : List OrbEvent) : OrbSched :=
  es.foldl (orbStep sens sm) orbInit

/-! ## HomeClient wake-word / session state machine (src/unnamed/part_000)

Events are the external stimuli: the wake-word engine finishing loading, a
keyword detection, the 300ms settle timer firing, the token fetch resolving
or rejecting, the room disconnecting, and the 1.5s resume timer firing.
After each event handler the two condition-driven effects run: the
start-listening effect at lines 417-421 and the stop-when-connecting effect
at lines 441-445. -/

/-- Source line 299: `type ConnectionMode = "voice" | "vision"`. -/
inductive AgentMode
  | voice
  | vision
deriving DecidableEq

/-- React state and refs of HomeClient that the claims are about. -/
structure HCState where
  loaded : Bool
  listening : Bool
  connecting : Bool
  connected : Bool
  mode : Option AgentMode
  error : Option String
  wakeDetected : Bool
  latched : Bool
  pendingConnect : Nat
  pendingResume : Nat
  tokenRequests : Nat
deriving DecidableEq

/-- Source line 436: the settle delay (in milliseconds) between stopping the
wake-word engine and requesting the token. -/
def settleDelayMs : Nat := 300

/-- Source line 472: the cooldown (in milliseconds) before wake-word
listening resumes after a disconnect. -/
def disconnectCooldownMs : Nat := 1500

/-- External events of the HomeClient machine. -/
inductive HCEvent
  | loaded
  | detect
  | timerFire
  | tokenOk
  | tokenErr (msg : String)
  | disconnect
  | resumeFire
deriving DecidableEq

/-- The two condition-driven effects, applied in source order after every
event. Lines 417-421: start the engine when loaded, not listening, not
connected and not connecting. Lines 441-445: stop the engine when connecting
or connected while it is listening. -/
def hcSettle (s : HCState) : HCState :=
  let s1 :=
    if s.loaded && !s.listening && !s.connected && !s.connecting then
      { s with listening := true }
    else s
  if (s1.connecting || s1.connected) && s1.listening then
    { s1 with listening := false }
  else s1

/-- Event handlers.
loaded: the usePorcupine init resolves (lines 393-399).
detect: the detection effect at lines 424-438 with its latch guard at 425:
when the latch is clear it marks the detection, sets the latch, stops the
engine, and schedules the delayed connect; otherwise it does nothing.
timerFire: the 300ms timeout body runs connectToAgent (lines 339-356): set
connecting, set the mode, clear the error, and issue the token fetch.
tokenOk: lines 363-370 of connectToAgent plus its finally block.
tokenErr: the catch block at lines 371-374 plus the finally block: surface
the message, clear the mode, stop connecting. The latch is not touched.
disconnect: handleDisconnect (lines 455-473), reachable only while the room
is connected: clear the session state and the latch and schedule the resume.
resumeFire: the 1.5s timeout body at lines 467-472. -/
def hcHandle (s : HCState) : HCEvent → HCState
  | .loaded => { s with loaded := true }
  | .detect =>
    if s.latched then s
    else
      { s with
        wakeDetected := true
        latched := true
        listening := false
        pendingConnect := s.pendingConnect + 1 }
  | .timerFire =>
    if 0 < s.pendingConnect then
      { s with
        pendingConnect := s.pendingConnect - 1
        connecting := true
        mode := some .vision
        error := none
        tokenRequests := s.tokenRequests + 1 }
    else s
  | .tokenOk =>
    if s.connecting then
      { s with connected := true, connecting := false }
    else s
  | .tokenErr msg =>
    if s.connecting then
      { s with error := some msg, mode := none, connecting := false }
    else s
  | .disconnect =>
    if s.connected then
      { s with
        connected := false
        mode := none
        wakeDetected := false
        latched := false
        pendingResume := s.pendingResume + 1 }
    else s
  | .resumeFire =>
    if 0 < s.pendingResume then
      let s2 := { s with pendingResume := s.pendingResume - 1 }
      if s2.loaded && !s2.listening then { s2 with listening := true } else s2
    else s

/-- One full step: the event handler followed by the condition-driven
effects. -/
def hcStep (s : HCState) (e : HCEvent) : HCState := hcSettle (hcHandle s e)

/-- State of HomeClient right after mount. -/
def hcInit : HCState :=
  { loaded := false, listening := false, connecting := false, connected := false
    mode := none, error := none, wakeDetected := false, latched := false
    pendingConnect := 0, pendingResume := 0, tokenRequests := 0 }

/-- Run of the machine from a given state over a sequence of events. -/
def hcRunFrom (s : HCState) (es : List HCEvent) : HCState := es.foldl hcStep s

/-- Run of the machine from the initial state. -/
def hcRun (es : List HCEvent) : HCState := hcRunFrom hcInit es

/-- Structural invariant of the machine: at most one delayed connect is ever
pending, none is pending once a connection attempt is in flight or
established, the latch is set whenever an attempt is pending, in flight or
established, and connecting and connected are mutually exclusive. -/
def HCInv (s : HCState) : Prop :=
  s.pendingConnect ≤ 1
  ∧ (s.connecting = true ∨ s.connected = true → s.pendingConnect = 0)
  ∧ (0 < s.pendingConnect ∨ s.connecting = true ∨ s.connected = true → s.latched = true)
  ∧ ¬(s.connecting = true ∧ s.connected = true)

/-- Dead-latch configuration reached after a failed wake-word connection
attempt: nothing in flight, nothing pending, and the latch still set. -/
def HCStuck (s : HCState) : Prop :=
  s.connecting = false ∧ s.connected = false ∧ s.pendingConnect = 0 ∧ s.latched = true

/-! ## Token endpoints (src/unnamed/part_004, part_005, part_002)

Each handler is a Next.js POST route. The body is `await request.json()`
followed by field accesses: a body that fails to parse as a JSON object is
modelled as none and lands in the catch-all (status 500, error payload).
The LiveKit environment variables are each present or missing/empty. The
downstream SDK calls that can reject (toJwt) are modelled by an Option
result; createRoom and createDispatch are wrapped in their own try/catch
blocks whose failures only log, so they are modelled as booleans the
response cannot depend on. -/

/-- Optional fields of the POST body. -/
structure TokenBody where
  room_name : Option String
  participant_identity : Option String
  participant_name : Option String
deriving DecidableEq

/-- Payload of a token-endpoint response: either the success object with
exactly the fields server_url, participant_token and room_name, or the
failure object with exactly the field error. -/
inductive TokenPayload
  | ok (server_url participant_token room_name : String)
  | err (error : String)
deriving DecidableEq

/-- HTTP response of a token endpoint: status code and JSON payload. -/
structure TokenReply where
  status : Nat
  payload : TokenPayload
deriving DecidableEq

/-- LiveKit configuration read from the environment; none models an unset or
empty variable (both are falsy in the check at the top of each handler). -/
structure LiveKitEnv where
  apiKey : Option String
  apiSecret : Option String
  url : Option String
deriving DecidableEq

/-- POST handler of src/unnamed/part_004 (the plain /api/token route):
parse the body, default the room name, check the credentials, sign the JWT,
and reply 201 with the session descriptor; every failure path replies 500
with an error string. -/
def tokenPOST (env : LiveKitEnv) (body : Option TokenBody) (randRoom : String)
    (jwt : Option String) : TokenReply :=
  match body with
  | none => { status := 500, payload := .err "Failed to generate token" }
  | some b =>
    let roomName := b.room_name.getD ("room-" ++ randRoom)
    match env.apiKey, env.apiSecret, env.url with
    | some _, some _, some wsUrl =>
      match jwt with
      | some t => { status := 201, payload := .ok wsUrl t roomName }
      | none => { status := 500, payload := .err "Failed to generate token" }
    | _, _, _ => { status := 500, payload := .err "LiveKit credentials not configured" }

/-- POST handler of src/unnamed/part_005 (/api/token/realtime-vision): same
response structure as tokenPOST with a vision- room prefix; the createRoom
and createDispatch outcomes are swallowed by their local try/catch blocks. -/
def visionTokenPOST (env : LiveKitEnv) (body : Option TokenBody) (randRoom : String)
    (jwt : Option String) (_createRoomOk _dispatchOk : Bool) : TokenReply :=
  match body with
  | none => { status := 500, payload := .err "Failed to generate token" }
  | some b =>
    let roomName := b.room_name.getD ("vision-" ++ randRoom)
    match env.apiKey, env.apiSecret, env.url with
    | some _, some _, some wsUrl =>
      match jwt with
      | some t => { status := 201, payload := .ok wsUrl t roomName }
      | none => { status := 500, payload := .err "Failed to generate token" }
    | _, _, _ => { status := 500, payload := .err "LiveKit credentials not configured" }

/-- POST handler of src/unnamed/part_002 (the token route variant that also
creates the room and dispatches the voice agent, both in local try/catch
blocks). -/
def dispatchTokenPOST (env : LiveKitEnv) (body : Option TokenBody) (randRoom : String)
    (jwt : Option String) (_createRoomOk _dispatchOk : Bool) : TokenReply :=
  match body with
  | none => { status := 500, payload := .err "Failed to generate token" }
  | some b =>
    let roomName := b.room_name.getD ("room-" ++ randRoom)
    match env.apiKey, env.apiSecret, env.url with
    | some _, some _, some wsUrl =>
      match jwt with
      | some t => { status := 201, payload := .ok wsUrl t roomName }
      | none => { status := 500, payload := .err "Failed to generate token" }
    | _, _, _ => { status := 500, payload := .err "LiveKit credentials not configured" }

/-- Amplitude formula exactly as the specification words it: arithmetic mean
of the bins, normalized by the fixed reference ceiling 128 and clamped to the
interval from 0 to 1, then scaled by the sensitivity factor.
Modelled from the spec for the refinement comparison with rawLevel. -/
def specAmplitude (bins : List ℚ) (sensitivity : ℚ) : ℚ :=
  max 0 (min (average bins / 128) 1) * sensitivity

/-- Membership interval invariant of the orb audio state: every history entry
and the smoothed level lie between 0 and 1. -/
def OrbInv (st : OrbAudio) : Prop :=
  (∀ y ∈ st.history, 0 ≤ y ∧ y ≤ 1) ∧ 0 ≤ st.smoothed ∧ st.smoothed ≤ 1

/-! ## Helper lemmas -/

lemma pushSample_eq (h : List ℚ) (x : ℚ) :
    pushSample h x
      = if historySize < h.length + 1 then (h ++ [x]).tail else h ++ [x] := by
  unfold pushSample
  simp

lemma pushSample_drop (xs : List ℚ) (x : ℚ) :
    pushSample (xs.drop (xs.length - historySize)) x
      = (xs ++ [x]).drop ((xs ++ [x]).length - historySize) := by
  have hhs : historySize = 12 := rfl
  rcases Nat.lt_or_ge xs.length historySize with hlt | hge
  · have h1 : xs.length - historySize = 0 := by omega
    have h2 : (xs ++ [x]).length - historySize = 0 := by
      simp only [List.length_append, List.length_singleton]
      omega
    rw [h1, h2, List.drop_zero, List.drop_zero, pushSample_eq, if_neg (by omega)]
  · have hlenA : (xs.drop (xs.length - historySize)).length = historySize := by
      rw [List.length_drop]
      omega
    rw [pushSample_eq, if_pos (by omega)]
    rw [← List.drop_one, List.drop_append_of_le_length (by omega), List.drop_drop]
    have h3 : (xs ++ [x]).length - historySize ≤ xs.length := by
      simp only [List.length_append, List.length_singleton]
      omega
    rw [List.drop_append_of_le_length h3]
    have h4 : xs.length - historySize + 1 = (xs ++ [x]).length - historySize := by
      simp only [List.length_append, List.length_singleton]
      omega
    rw [h4]

lemma runHistory_eq_drop (xs : List ℚ) :
    runHistory xs = xs.drop (xs.length - historySize) := by
  induction xs using List.reverseRecOn with
  | nil => simp [runHistory]
  | append_singleton ys y ih =>
    have : runHistory (ys ++ [y]) = pushSample (runHistory ys) y := by
      simp [runHistory, List.foldl_append]
    rw [this, ih, pushSample_drop]

lemma average_nonneg {bins : List ℚ} (hb : ∀ b ∈ bins, 0 ≤ b) : 0 ≤ average bins :=
  div_nonneg (List.sum_nonneg hb) (Nat.cast_nonneg _)

lemma average_le_one {l : List ℚ} (hne : l ≠ []) (hb : ∀ b ∈ l, b ≤ 1) :
    average l ≤ 1 := by
  unfold average
  have hlen : (0 : ℚ) < l.length := by
    have : 0 < l.length := List.length_pos.mpr hne
    exact_mod_cast this
  rw [div_le_one hlen]
  have := List.sum_le_card_nsmul l 1 hb
  simpa using this

lemma pushSample_ne_nil (h : List ℚ) (x : ℚ) : pushSample h x ≠ [] := by
  have hhs : historySize = 12 := rfl
  rw [pushSample_eq]
  split
  · rename_i hlt
    intro habs
    have := congrArg List.length habs
    simp only [List.length_tail, List.length_append, List.length_singleton,
      List.length_nil] at this
    omega
  · simp

lemma mem_pushSample {h : List ℚ} {x y : ℚ} (hy : y ∈ pushSample h x) :
    y ∈ h ∨ y = x := by
  rw [pushSample_eq] at hy
  split at hy
  · have := List.mem_of_mem_tail hy
    rcases List.mem_append.mp this with h1 | h2
    · exact Or.inl h1
    · exact Or.inr (List.mem_singleton.mp h2)
  · rcases List.mem_append.mp hy with h1 | h2
    · exact Or.inl h1
    · exact Or.inr (List.mem_singleton.mp h2)

lemma rawLevel_nonneg {bins : List ℚ} {sens : ℚ} (hb : ∀ b ∈ bins, 0 ≤ b)
    (hs : 0 ≤ sens) : 0 ≤ rawLevel bins sens := by
  unfold rawLevel normalizedLevel
  have h1 : 0 ≤ min (average bins / 128) 1 :=
    le_min (div_nonneg (average_nonneg hb) (by norm_num)) (by norm_num)
  exact mul_nonneg h1 hs

lemma rawLevel_le_one {bins : List ℚ} {sens : ℚ} (hb : ∀ b ∈ bins, 0 ≤ b)
    (hs0 : 0 ≤ sens) (hs1 : sens ≤ 1) : rawLevel bins sens ≤ 1 := by
  unfold rawLevel normalizedLevel
  have h1 : 0 ≤ min (average bins / 128) 1 :=
    le_min (div_nonneg (average_nonneg hb) (by norm_num)) (by norm_num)
  have h2 : min (average bins / 128) 1 ≤ 1 := min_le_right _ _
  exact mul_le_one₀ h2 hs0 hs1

lemma fadeStep_cases (l : ℚ) :
    fadeStep l = if 1/1000 < l * (98/100) then (l * (98/100), true) else (0, false) := rfl

lemma fadeRun_succ (n : Nat) (l : ℚ) :
    fadeRun (n + 1) l
      = if 1/1000 < l * (98/100) then fadeRun n (l * (98/100)) else 0 := by
  show (let s := fadeStep l; if s.2 then fadeRun n s.1 else s.1) = _
  rw [fadeStep_cases]
  split <;> simp

lemma fadeRun_nonneg (n : Nat) (l : ℚ) (h : 0 ≤ l) : 0 ≤ fadeRun n l := by
  induction n generalizing l with
  | zero => simpa [fadeRun]
  | succ n ih =>
    rw [fadeRun_succ]
    split
    · exact ih _ (by positivity)
    · norm_num

lemma fadeRun_eq_zero (n : Nat) (l : ℚ) (hn : 1 ≤ n)
    (h : (98/100 : ℚ) ^ n * l ≤ 1/1000) : fadeRun n l = 0 := by
  induction n generalizing l with
  | zero => omega
  | succ n ih =>
    rw [fadeRun_succ]
    split
    · rename_i hc
      rcases Nat.eq_zero_or_pos n with h0 | hpos
      · subst h0
        exfalso
        have h1 : (98/100 : ℚ) * l ≤ 1/1000 := by
          simpa using h
        linarith
      · apply ih (l * (98/100)) hpos
        calc (98/100 : ℚ) ^ n * (l * (98/100)) = (98/100) ^ (n + 1) * l := by ring
          _ ≤ 1/1000 := h
    · rfl

lemma smootherStep_def (sm raw : ℚ) (st : OrbAudio) :
    smootherStep sm raw st
      = { history := pushSample st.history raw
          smoothed := st.smoothed * sm + average (pushSample st.history raw) * (1 - sm) } :=
  rfl

lemma sum_of_const {l : List ℚ} {x : ℚ} (h : ∀ y ∈ l, y = x) :
    l.sum = l.length * x := by
  induction l with
  | nil => simp
  | cons a t ih =>
    have ha : a = x := h a (List.mem_cons_self a t)
    have ht : ∀ y ∈ t, y = x := fun y hy => h y (List.mem_cons_of_mem a hy)
    rw [List.sum_cons, ih ht, ha, List.length_cons]
    push_cast
    ring

lemma average_of_const {l : List ℚ} {x : ℚ} (hne : l ≠ []) (h : ∀ y ∈ l, y = x) :
    average l = x := by
  unfold average
  rw [sum_of_const h]
  have hlen : (l.length : ℚ) ≠ 0 := by
    have := List.length_pos.mpr hne
    positivity
  field_simp

lemma constRun_history (sm x s0 : ℚ) (n : Nat) :
    ∀ y ∈ (constRun sm x ⟨[], s0⟩ n).history, y = x := by
  induction n with
  | zero => simp [constRun]
  | succ n ih =>
    intro y hy
    rw [show constRun sm x ⟨[], s0⟩ (n + 1)
          = smootherStep sm x (constRun sm x ⟨[], s0⟩ n) from rfl,
      smootherStep_def] at hy
    rcases mem_pushSample hy with h1 | h2
    · exact ih y h1
    · exact h2

lemma constRun_smoothed (sm x s0 : ℚ) (n : Nat) :
    (constRun sm x ⟨[], s0⟩ n).smoothed - x = sm ^ n * (s0 - x) := by
  induction n with
  | zero => simp [constRun]
  | succ n ih =>
    rw [show constRun sm x ⟨[], s0⟩ (n + 1)
          = smootherStep sm x (constRun sm x ⟨[], s0⟩ n) from rfl,
      smootherStep_def]
    have havg : average (pushSample (constRun sm x ⟨[], s0⟩ n).history x) = x := by
      apply average_of_const (pushSample_ne_nil _ _)
      intro y hy
      rcases mem_pushSample hy with h1 | h2
      · exact constRun_history sm x s0 n y h1
      · exact h2
    have hp : (constRun sm x ⟨[], s0⟩ n).smoothed = x + sm ^ n * (s0 - x) := by
      linarith [ih]
    simp only [havg]
    rw [hp]
    ring

lemma average_unit {l : List ℚ} (hne : l ≠ []) (hb : ∀ y ∈ l, 0 ≤ y ∧ y ≤ 1) :
    0 ≤ average l ∧ average l ≤ 1 :=
  ⟨average_nonneg (fun b hbm => (hb b hbm).1),
   average_le_one hne (fun b hbm => (hb b hbm).2)⟩

@[simp] lemma hcSettle_loaded (s : HCState) : (hcSettle s).loaded = s.loaded := by
  simp only [hcSettle]
  split_ifs <;> rfl

@[simp] lemma hcSettle_connecting (s : HCState) :
    (hcSettle s).connecting = s.connecting := by
  simp only [hcSettle]
  split_ifs <;> rfl

@[simp] lemma hcSettle_connected (s : HCState) :
    (hcSettle s).connected = s.connected := by
  simp only [hcSettle]
  split_ifs <;> rfl

@[simp] lemma hcSettle_mode (s : HCState) : (hcSettle s).mode = s.mode := by
  simp only [hcSettle]
  split_ifs <;> rfl

@[simp] lemma hcSettle_error (s : HCState) : (hcSettle s).error = s.error := by
  simp only [hcSettle]
  split_ifs <;> rfl

@[simp] lemma hcSettle_wakeDetected (s : HCState) :
    (hcSettle s).wakeDetected = s.wakeDetected := by
  simp only [hcSettle]
  split_ifs <;> rfl

@[simp] lemma hcSettle_latched (s : HCState) : (hcSettle s).latched = s.latched := by
  simp only [hcSettle]
  split_ifs <;> rfl

@[simp] lemma hcSettle_pendingConnect (s : HCState) :
    (hcSettle s).pendingConnect = s.pendingConnect := by
  simp only [hcSettle]
  split_ifs <;> rfl

@[simp] lemma hcSettle_pendingResume (s : HCState) :
    (hcSettle s).pendingResume = s.pendingResume := by
  simp only [hcSettle]
  split_ifs <;> rfl

@[simp] lemma hcSettle_tokenRequests (s : HCState) :
    (hcSettle s).tokenRequests = s.tokenRequests := by
  simp only [hcSettle]
  split_ifs <;> rfl

lemma hcSettle_listening_true (s : HCState) (h : s.loaded = true)
    (hc : s.connecting = false) (hd : s.connected = false) :
    (hcSettle s).listening = true := by
  simp only [hcSettle, h, hc, hd]
  by_cases hl : s.listening <;> simp [hl, hc, hd]

lemma hcSettle_listening_false_of_connecting (s : HCState)
    (hc : s.connecting = true) : (hcSettle s).listening = false := by
  simp only [hcSettle, hc]
  by_cases hl : s.listening <;> simp [hl, hc]

lemma hcInv_settle (s : HCState) (h : HCInv s) : HCInv (hcSettle s) := by
  unfold HCInv at h ⊢
  simpa using h

set_option maxRecDepth 4000 in
lemma hcInv_handle (s : HCState) (e : HCEvent) (h : HCInv s) :
    HCInv (hcHandle s e) := by
  obtain ⟨ld, li, cg, cd, mo, er, wd, la, pc, pr, tr⟩ := s
  obtain ⟨h1, h2, h3, h4⟩ := h
  simp only [HCInv] at *
  cases e with
  | loaded => exact ⟨h1, h2, h3, h4⟩
  | detect =>
    cases la with
    | true => simp_all [hcHandle]
    | false =>
      simp only [hcHandle]
      simp at h3
      obtain ⟨hpc, hcg, hcd⟩ := h3
      subst hcg hcd
      simp_all
  | timerFire =>
    simp only [hcHandle]
    split_ifs with hpc
    · have hng : ¬(cg = true ∨ cd = true) := fun hor => by
        have := h2 hor
        omega
      have hla : la = true := h3 (Or.inl hpc)
      cases cg <;> cases cd <;> simp_all
    · exact ⟨h1, h2, h3, h4⟩
  | tokenOk =>
    simp only [hcHandle]
    split_ifs with hcg
    · have hpc : pc = 0 := h2 (Or.inl hcg)
      have hla : la = true := h3 (Or.inr (Or.inl hcg))
      simp_all
    · exact ⟨h1, h2, h3, h4⟩
  | tokenErr msg =>
    simp only [hcHandle]
    split_ifs with hcg
    · have hpc : pc = 0 := h2 (Or.inl hcg)
      have hla : la = true := h3 (Or.inr (Or.inl hcg))
      cases cd <;> simp_all
    · exact ⟨h1, h2, h3, h4⟩
  | disconnect =>
    simp only [hcHandle]
    split_ifs with hcd
    · have hpc : pc = 0 := h2 (Or.inr hcd)
      subst hcd
      cases cg <;> simp_all
    · exact ⟨h1, h2, h3, h4⟩
  | resumeFire =>
    simp only [hcHandle]
    split_ifs <;> exact ⟨h1, h2, h3, h4⟩

lemma hcInv_step (s : HCState) (e : HCEvent) (h : HCInv s) : HCInv (hcStep s e) :=
  hcInv_settle _ (hcInv_handle s e h)

set_option maxRecDepth 4000 in
lemma hcStuck_step (s : HCState) (e : HCEvent) (h : HCStuck s) :
    HCStuck (hcStep s e) ∧ (hcStep s e).tokenRequests = s.tokenRequests := by
  obtain ⟨ld, li, cg, cd, mo, er, wd, la, pc, pr, tr⟩ := s
  obtain ⟨hc, hd, hp, hl⟩ := h
  simp only at hc hd hp hl
  subst hc hd hp hl
  cases e with
  | loaded => simp [hcStep, hcHandle, HCStuck]
  | detect => simp [hcStep, hcHandle, HCStuck]
  | timerFire => simp [hcStep, hcHandle, HCStuck]
  | tokenOk => simp [hcStep, hcHandle, HCStuck]
  | tokenErr msg => simp [hcStep, hcHandle, HCStuck]
  | disconnect => simp [hcStep, hcHandle, HCStuck]
  | resumeFire =>
    simp only [hcStep, hcHandle]
    split_ifs <;> simp [HCStuck]

lemma hcRunFrom_cons (s : HCState) (e : HCEvent) (t : List HCEvent) :
    hcRunFrom s (e :: t) = hcRunFrom (hcStep s e) t := rfl

lemma hcStuck_run (s : HCState) (h : HCStuck s) (es : List HCEvent) :
    HCStuck (hcRunFrom s es) ∧ (hcRunFrom s es).tokenRequests = s.tokenRequests := by
  induction es generalizing s with
  | nil => exact ⟨h, rfl⟩
  | cons e t ih =>
    have h1 := hcStuck_step s e h
    have h2 := ih (hcStep s e) h1.1
    exact ⟨by rw [hcRunFrom_cons]; exact h2.1,
      by rw [hcRunFrom_cons, h2.2, h1.2]⟩

/-! ## Theorems -/

/-- C5: for every sequence of raw samples appended by the extractor, the
history buffer holds at most historySize = 12 entries and its contents are
exactly the most recent entries of the input sequence in insertion order
(the oldest evicted first); and the detach branch of the SiriOrb effect
resets the buffer to empty. -/
theorem history_buffer_fifo :
    (∀ xs : List ℚ, (runHistory xs).length ≤ historySize
      ∧ runHistory xs = xs.drop (xs.length - historySize))
    ∧ (∀ (sens sm : ℚ) (bins : List ℚ) (s : OrbSched),
        (effectRun sens sm false bins s).audio.history = []) := by
  constructor
  · intro xs
    refine ⟨?_, runHistory_eq_drop xs⟩
    rw [runHistory_eq_drop, List.length_drop]
    omega
  · intro sens sm bins s
    unfold effectRun runFade
    simp only [Bool.false_eq_true, if_false]
    split <;> simp [scheduleFrame]

/-- C8: the raw level emitted each frame by the extractor is exactly the
arithmetic mean of the frequency bins, normalized by the reference ceiling
128 and clamped to the unit interval, scaled by the sensitivity (the
spec-worded formula specAmplitude), and an all-zero bin array (a muted
source) yields a raw level of exactly 0. -/
theorem raw_level_matches_spec (bins : List ℚ) (sens : ℚ)
    (hb : ∀ b ∈ bins, 0 ≤ b) :
    rawLevel bins sens = specAmplitude bins sens
    ∧ rawLevel (List.replicate frequencyBinCount 0) sens = 0 := by
  constructor
  · unfold rawLevel specAmplitude normalizedLevel
    have h1 : 0 ≤ min (average bins / 128) 1 :=
      le_min (div_nonneg (average_nonneg hb) (by norm_num)) (by norm_num)
    rw [max_eq_right h1]
  · unfold rawLevel normalizedLevel average
    simp [List.sum_replicate]

/-- Witness for raw_level_matches_spec at a concrete frame: a full window of
bins at byte value 64 with sensitivity one half. -/
theorem raw_level_matches_spec_witness :
    rawLevel (List.replicate frequencyBinCount 64) (1/2)
        = specAmplitude (List.replicate frequencyBinCount 64) (1/2)
      ∧ rawLevel (List.replicate frequencyBinCount 0) (1/2) = 0 :=
  raw_level_matches_spec (List.replicate frequencyBinCount 64) (1/2)
    (by intro b hb; rw [List.eq_of_mem_replicate hb]; norm_num)

/-- C6: each of the three token endpoints replies 201 (a 2xx status) exactly
on its success path, whose payload is the session descriptor with the fields
server_url, participant_token and room_name, and replies 500 (a non-2xx
status) on every failure path, whose payload is a single error string; the
body may be the empty object or carry any subset of the optional fields. -/
theorem token_endpoint_shapes :
    ∀ (env : LiveKitEnv) (body : Option TokenBody) (r : String) (jwt : Option String)
      (cr dp : Bool),
      ((∀ u t rn, (tokenPOST env body r jwt).payload = .ok u t rn →
          (tokenPOST env body r jwt).status = 201)
        ∧ (∀ msg, (tokenPOST env body r jwt).payload = .err msg →
            (tokenPOST env body r jwt).status = 500))
      ∧ ((∀ u t rn, (visionTokenPOST env body r jwt cr dp).payload = .ok u t rn →
            (visionTokenPOST env body r jwt cr dp).status = 201)
        ∧ (∀ msg, (visionTokenPOST env body r jwt cr dp).payload = .err msg →
            (visionTokenPOST env body r jwt cr dp).status = 500))
      ∧ ((∀ u t rn, (dispatchTokenPOST env body r jwt cr dp).payload = .ok u t rn →
            (dispatchTokenPOST env body r jwt cr dp).status = 201)
        ∧ (∀ msg, (dispatchTokenPOST env body r jwt cr dp).payload = .err msg →
            (dispatchTokenPOST env body r jwt cr dp).status = 500))
      ∧ (200 ≤ 201 ∧ 201 < 300 ∧ ¬(200 ≤ 500 ∧ 500 < 300)) := by
  intro env body r jwt cr dp
  obtain ⟨k, s, u⟩ := env
  rcases body with _ | b <;>
    rcases k with _ | k <;> rcases s with _ | s <;> rcases u with _ | u <;>
    rcases jwt with _ | j <;>
    simp [tokenPOST, visionTokenPOST, dispatchTokenPOST]

/-- Witness for token_endpoint_shapes: with configured credentials, an empty
body object and a successful signing, the reply is 201; with no credentials
the reply is 500. -/
theorem token_endpoint_shapes_witness :
    (tokenPOST ⟨some "k", some "s", some "wss"⟩ (some ⟨none, none, none⟩) "r"
        (some "jwt")).status = 201
    ∧ (tokenPOST ⟨none, none, none⟩ (some ⟨none, none, none⟩) "r"
        (some "jwt")).status = 500 :=
  ⟨((token_endpoint_shapes ⟨some "k", some "s", some "wss"⟩ (some ⟨none, none, none⟩)
      "r" (some "jwt") true true).1.1 "wss" "jwt" "room-r" rfl),
   ((token_endpoint_shapes ⟨none, none, none⟩ (some ⟨none, none, none⟩)
      "r" (some "jwt") true true).1.2 "LiveKit credentials not configured" rfl)⟩

/-- C4: starting from any smoothed level between 0 and 1 with the source
detached and no further input, the decay loop reaches exactly 0 within 342
frames, never produces a negative value along the way, and once the level is
0 the fadeOut body does not schedule another frame. -/
theorem fade_decay_terminates (l : ℚ) (h0 : 0 ≤ l) (h1 : l ≤ 1) :
    fadeRun 342 l = 0 ∧ (∀ n, 0 ≤ fadeRun n l) ∧ (fadeStep 0).2 = false := by
  refine ⟨?_, fun n => fadeRun_nonneg n l h0, by rw [fadeStep_cases]; norm_num⟩
  apply fadeRun_eq_zero 342 l (by norm_num)
  have hp : (0:ℚ) ≤ (98/100) ^ 342 := by positivity
  have hb : (98/100 : ℚ) ^ 342 ≤ 1/1000 := by norm_num
  calc (98/100 : ℚ) ^ 342 * l ≤ (98/100) ^ 342 * 1 :=
        mul_le_mul_of_nonneg_left h1 hp
    _ = (98/100) ^ 342 := mul_one _
    _ ≤ 1/1000 := hb

/-- Witness for fade_decay_terminates at the worst-case starting level 1. -/
theorem fade_decay_terminates_witness :
    fadeRun 342 1 = 0 ∧ (∀ n, 0 ≤ fadeRun n 1) ∧ (fadeStep 0).2 = false :=
  fade_decay_terminates 1 (by norm_num) (by norm_num)

/-- C10: with sensitivity and smoothing in the unit interval, the initial
audio state satisfies the unit-interval invariant, every sampling step and
every decay step preserves it (the smoothed level is never negative and
never exceeds 1), and a level in the unit interval renders a scale between
minScale and maxScale. -/
theorem audio_level_bounded (sens sm minS maxS : ℚ)
    (hs0 : 0 ≤ sens) (hs1 : sens ≤ 1) (hm0 : 0 ≤ sm) (hm1 : sm ≤ 1)
    (hsc : minS ≤ maxS) :
    OrbInv { history := [], smoothed := 0 }
    ∧ (∀ (bins : List ℚ) (st : OrbAudio), (∀ b ∈ bins, 0 ≤ b) → OrbInv st →
        OrbInv (analyzeStep sens sm bins st))
    ∧ (∀ st : OrbAudio, OrbInv st →
        OrbInv { history := st.history, smoothed := (fadeStep st.smoothed).1 })
    ∧ (∀ l : ℚ, 0 ≤ l → l ≤ 1 →
        minS ≤ scale minS maxS l ∧ scale minS maxS l ≤ maxS) := by
  refine ⟨⟨by simp, by norm_num, by norm_num⟩, ?_, ?_, ?_⟩
  · intro bins st hb hst
    obtain ⟨hh, ha0, ha1⟩ := hst
    have hraw0 : 0 ≤ rawLevel bins sens := rawLevel_nonneg hb hs0
    have hraw1 : rawLevel bins sens ≤ 1 := rawLevel_le_one hb hs0 hs1
    unfold analyzeStep
    rw [smootherStep_def]
    have hh2 : ∀ y ∈ pushSample st.history (rawLevel bins sens), 0 ≤ y ∧ y ≤ 1 := by
      intro y hy
      rcases mem_pushSample hy with h1 | h2
      · exact hh y h1
      · exact h2 ▸ ⟨hraw0, hraw1⟩
    have havg := average_unit (pushSample_ne_nil _ _) hh2
    refine ⟨hh2, ?_, ?_⟩ <;> dsimp only
    · have p1 : 0 ≤ st.smoothed * sm := mul_nonneg ha0 hm0
      have p2 : 0 ≤ average (pushSample st.history (rawLevel bins sens)) * (1 - sm) :=
        mul_nonneg havg.1 (by linarith)
      linarith
    · have p1 : st.smoothed * sm ≤ 1 * sm := mul_le_mul_of_nonneg_right ha1 hm0
      have p2 : average (pushSample st.history (rawLevel bins sens)) * (1 - sm)
          ≤ 1 * (1 - sm) := mul_le_mul_of_nonneg_right havg.2 (by linarith)
      linarith
  · intro st hst
    obtain ⟨hh, ha0, ha1⟩ := hst
    rw [fadeStep_cases]
    split
    · exact ⟨hh, by nlinarith, by nlinarith⟩
    · exact ⟨hh, by norm_num, by norm_num⟩
  · intro l hl0 hl1
    unfold scale
    constructor
    · nlinarith
    · nlinarith

/-- Witness for audio_level_bounded at the demo parameters: sensitivity 0.9,
smoothing 0.92, minScale 1, maxScale 1.3. -/
theorem audio_level_bounded_witness :
    OrbInv { history := [], smoothed := 0 }
    ∧ (∀ (bins : List ℚ) (st : OrbAudio), (∀ b ∈ bins, 0 ≤ b) → OrbInv st →
        OrbInv (analyzeStep (9/10) (92/100) bins st))
    ∧ (∀ st : OrbAudio, OrbInv st →
        OrbInv { history := st.history, smoothed := (fadeStep st.smoothed).1 })
    ∧ (∀ l : ℚ, 0 ≤ l → l ≤ 1 →
        1 ≤ scale 1 (13/10) l ∧ scale 1 (13/10) l ≤ 13/10) :=
  audio_level_bounded (9/10) (92/100) 1 (13/10) (by norm_num) (by norm_num)
    (by norm_num) (by norm_num) (by norm_num)

/-- C7: holding the raw input constant at x, the smoothed level converges to
x: for every positive epsilon there is a frame count past which the smoothed
level stays within epsilon of x, for any smoothing factor between 0.9 and
0.97 and any starting level in the unit interval. -/
theorem smoothing_converges (sm x s0 ε : ℚ)
    (hm0 : 9/10 ≤ sm) (hm1 : sm ≤ 97/100)
    (hx0 : 0 ≤ x) (hx1 : x ≤ 1) (hs0 : 0 ≤ s0) (hs1 : s0 ≤ 1) (hε : 0 < ε) :
    ∃ N, ∀ n, N ≤ n → |(constRun sm x ⟨[], s0⟩ n).smoothed - x| < ε := by
  obtain ⟨N, hN⟩ := exists_pow_lt_of_lt_one hε (show (97/100 : ℚ) < 1 by norm_num)
  refine ⟨N, fun n hn => ?_⟩
  rw [constRun_smoothed, abs_mul]
  have hsm0 : (0:ℚ) ≤ sm := by linarith
  have h1 : |sm ^ n| = sm ^ n := abs_of_nonneg (pow_nonneg hsm0 n)
  have h2 : |s0 - x| ≤ 1 := abs_le.mpr ⟨by linarith, by linarith⟩
  have h3 : sm ^ n ≤ sm ^ N := pow_le_pow_of_le_one hsm0 (by linarith) hn
  have h4 : sm ^ N ≤ (97/100) ^ N := pow_le_pow_left₀ hsm0 hm1 N
  calc |sm ^ n| * |s0 - x| ≤ sm ^ n * 1 := by
        rw [h1]
        exact mul_le_mul_of_nonneg_left h2 (pow_nonneg hsm0 n)
    _ = sm ^ n := mul_one _
    _ ≤ (97/100) ^ N := le_trans h3 h4
    _ < ε := hN

/-- Witness for smoothing_converges: smoothing 0.92, constant input one half,
starting level 0, epsilon one hundredth. -/
theorem smoothing_converges_witness :
    ∃ N, ∀ n, N ≤ n →
      |(constRun (92/100) (1/2) ⟨[], 0⟩ n).smoothed - 1/2| < 1/100 := by
  have h := smoothing_converges (92/100) (1/2) 0 (1/100) (by norm_num) (by norm_num)
    (by norm_num) (by norm_num) (by norm_num) (by norm_num) (by norm_num)
  simpa using h


/-- C2: a wake-word detection arriving with the latch clear immediately stops
keyword detection, sets the single-use latch, and schedules exactly one
delayed connect, which on firing issues exactly one token request and enters
Connecting (stopping the engine again via the condition-driven effect); a
detection with the latch set is a complete no-op of the handler, and in any
invariant state that is Connecting or Connected the latch is necessarily set,
so such a detection produces no transition and no token request. The
structural invariant holds initially and is preserved by every step. -/
theorem wake_word_single_latch :
    (HCInv hcInit ∧ ∀ (s : HCState) (e : HCEvent), HCInv s → HCInv (hcStep s e))
    ∧ (∀ s : HCState, s.latched = false →
        (hcHandle s .detect).listening = false
        ∧ (hcHandle s .detect).latched = true
        ∧ (hcHandle s .detect).pendingConnect = s.pendingConnect + 1
        ∧ (hcHandle s .detect).tokenRequests = s.tokenRequests)
    ∧ (∀ s : HCState, 0 < s.pendingConnect →
        (hcStep s .timerFire).tokenRequests = s.tokenRequests + 1
        ∧ (hcStep s .timerFire).pendingConnect = s.pendingConnect - 1
        ∧ (hcStep s .timerFire).connecting = true
        ∧ (hcStep s .timerFire).listening = false)
    ∧ (∀ s : HCState, s.latched = true → hcHandle s .detect = s)
    ∧ (∀ s : HCState, HCInv s → s.connecting = true ∨ s.connected = true →
        hcHandle s .detect = s
        ∧ (hcStep s .detect).tokenRequests = s.tokenRequests
        ∧ (hcStep s .detect).pendingConnect = s.pendingConnect) := by
  have hdet : ∀ s : HCState, s.latched = true → hcHandle s .detect = s := by
    intro s hs
    simp [hcHandle, hs]
  refine ⟨⟨?_, hcInv_step⟩, ?_, ?_, hdet, ?_⟩
  · exact ⟨by norm_num [hcInit], by simp [hcInit], by simp [hcInit], by simp [hcInit]⟩
  · intro s hs
    simp [hcHandle, hs]
  · intro s hs
    have hh : hcHandle s .timerFire
        = { s with
            pendingConnect := s.pendingConnect - 1
            connecting := true
            mode := some AgentMode.vision
            error := none
            tokenRequests := s.tokenRequests + 1 } := by
      simp [hcHandle, hs]
    refine ⟨?_, ?_, ?_, ?_⟩ <;> rw [hcStep, hh]
    · simp
    · simp
    · simp
    · exact hcSettle_listening_false_of_connecting _ rfl
  · intro s hinv hcc
    have hla : s.latched = true := hinv.2.2.1 (Or.inr hcc)
    have h1 := hdet s hla
    exact ⟨h1, by rw [hcStep, h1]; simp, by rw [hcStep, h1]; simp⟩

/-- Witness for wake_word_single_latch: the state after loading is unlatched
and a detection there stops the engine; the state after a detection has a
pending connect whose firing issues one token request; a second detection in
that latched state changes nothing. -/
theorem wake_word_single_latch_witness :
    (hcHandle (hcRun [.loaded]) .detect).listening = false
    ∧ (hcStep (hcRun [.loaded, .detect]) .timerFire).tokenRequests
        = (hcRun [.loaded, .detect]).tokenRequests + 1
    ∧ hcHandle (hcRun [.loaded, .detect]) .detect = hcRun [.loaded, .detect]
    ∧ (hcStep (hcRun [.loaded, .detect, .timerFire]) .detect).tokenRequests
        = (hcRun [.loaded, .detect, .timerFire]).tokenRequests :=
  ⟨(wake_word_single_latch.2.1 _ (by decide)).1,
   (wake_word_single_latch.2.2.1 _ (by decide)).1,
   wake_word_single_latch.2.2.2.1 _ (by decide),
   (wake_word_single_latch.2.2.2.2 _
      (by unfold HCInv; decide) (Or.inl (by decide))).2.1⟩

/-- C3 counterexample: run the machine through load, a wake-word detection,
the settle timer, and a failed token fetch (status 500 with the LiveKit
credentials error). No re-trigger event of any kind follows the failure, yet
wake-word listening is active again in the resulting state: the
start-listening effect restarts the engine as soon as the attempt ends, so
listening does not wait for an explicit re-trigger as claimed. -/
theorem listening_resumes_after_failed_connection :
    (hcRun [.loaded, .detect, .timerFire,
        .tokenErr "LiveKit credentials not configured"]).listening = true
    ∧ (hcRun [.loaded, .detect, .timerFire,
        .tokenErr "LiveKit credentials not configured"]).error
        = some "LiveKit credentials not configured"
    ∧ (hcRun [.loaded, .detect, .timerFire,
        .tokenErr "LiveKit credentials not configured"]).connecting = false := by
  decide

/-- C3 (amended): when the token fetch fails, the machine returns to Idle
(not connecting, not connected, mode cleared), the error message is surfaced
as text, no token request is issued by the failure step, and the connection
attempt is never retried: every continuation of the run issues no further
token request. However wake-word listening resumes automatically (the
start-listening effect restarts the engine in the same settle pass), not
after an explicit re-trigger. -/
theorem token_failure_returns_idle (s : HCState) (msg : String)
    (hcg : s.connecting = true) (hcd : s.connected = false)
    (hpc : s.pendingConnect = 0) (hld : s.loaded = true) (hla : s.latched = true) :
    (hcStep s (.tokenErr msg)).connecting = false
    ∧ (hcStep s (.tokenErr msg)).connected = false
    ∧ (hcStep s (.tokenErr msg)).mode = none
    ∧ (hcStep s (.tokenErr msg)).error = some msg
    ∧ (hcStep s (.tokenErr msg)).tokenRequests = s.tokenRequests
    ∧ (hcStep s (.tokenErr msg)).listening = true
    ∧ (∀ es : List HCEvent,
        (hcRunFrom (hcStep s (.tokenErr msg)) es).tokenRequests = s.tokenRequests) := by
  have hh : hcHandle s (.tokenErr msg)
      = { s with error := some msg, mode := none, connecting := false } := by
    simp [hcHandle, hcg]
  have hstuck : HCStuck (hcStep s (.tokenErr msg)) := by
    rw [hcStep, hh]
    exact ⟨by simp, by simp [hcd], by simp [hpc], by simp [hla]⟩
  refine ⟨?_, ?_, ?_, ?_, ?_, ?_, ?_⟩
  · rw [hcStep, hh]; simp
  · rw [hcStep, hh]; simp [hcd]
  · rw [hcStep, hh]; simp
  · rw [hcStep, hh]; simp
  · rw [hcStep, hh]; simp
  · rw [hcStep, hh]
    exact hcSettle_listening_true _ (by simp [hld]) rfl (by simp [hcd])
  · intro es
    have h1 := hcStuck_run _ hstuck es
    rw [h1.2, hcStep, hh]
    simp

/-- Witness for token_failure_returns_idle at the concrete failing run: the
state reached by load, detection and timer, failing with the LiveKit
credentials error. -/
theorem token_failure_returns_idle_witness :
    (hcStep (hcRun [.loaded, .detect, .timerFire])
        (.tokenErr "LiveKit credentials not configured")).connecting = false
    ∧ (hcStep (hcRun [.loaded, .detect, .timerFire])
        (.tokenErr "LiveKit credentials not configured")).connected = false
    ∧ (hcStep (hcRun [.loaded, .detect, .timerFire])
        (.tokenErr "LiveKit credentials not configured")).mode = none
    ∧ (hcStep (hcRun [.loaded, .detect, .timerFire])
        (.tokenErr "LiveKit credentials not configured")).error
        = some "LiveKit credentials not configured"
    ∧ (hcStep (hcRun [.loaded, .detect, .timerFire])
        (.tokenErr "LiveKit credentials not configured")).tokenRequests
        = (hcRun [.loaded, .detect, .timerFire]).tokenRequests
    ∧ (hcStep (hcRun [.loaded, .detect, .timerFire])
        (.tokenErr "LiveKit credentials not configured")).listening = true
    ∧ (∀ es : List HCEvent,
        (hcRunFrom (hcStep (hcRun [.loaded, .detect, .timerFire])
            (.tokenErr "LiveKit credentials not configured")) es).tokenRequests
          = (hcRun [.loaded, .detect, .timerFire]).tokenRequests) :=
  token_failure_returns_idle (hcRun [.loaded, .detect, .timerFire])
    "LiveKit credentials not configured"
    (by decide) (by decide) (by decide) (by decide) (by decide)

/-- C9: the latch survives every event except a disconnect of an established
session; a failed token fetch in particular never clears it; in the
configuration reached by such a failure the machine is stuck with the latch
set while listening has restarted, and from any stuck configuration no
sequence of further events ever issues another token request (every
subsequent detection is ignored), the stuck configuration being preserved
throughout. -/
theorem latch_persists_after_failure :
    (∀ (s : HCState) (e : HCEvent), s.latched = true → e ≠ .disconnect →
        (hcStep s e).latched = true)
    ∧ (∀ (s : HCState) (msg : String),
        (hcStep s (.tokenErr msg)).latched = s.latched)
    ∧ (∀ (s : HCState) (msg : String), s.connecting = true → s.connected = false →
        s.pendingConnect = 0 → s.latched = true →
        HCStuck (hcStep s (.tokenErr msg))
        ∧ (s.loaded = true → (hcStep s (.tokenErr msg)).listening = true))
    ∧ (∀ s : HCState, HCStuck s → ∀ es : List HCEvent,
        (hcRunFrom s es).tokenRequests = s.tokenRequests
        ∧ HCStuck (hcRunFrom s es)) := by
  refine ⟨?_, ?_, ?_, ?_⟩
  · intro s e hla hne
    rw [hcStep, hcSettle_latched]
    cases e with
    | loaded => simpa [hcHandle] using hla
    | detect => simp [hcHandle, hla]
    | timerFire =>
      simp only [hcHandle]
      split_ifs <;> simpa using hla
    | tokenOk =>
      simp only [hcHandle]
      split_ifs <;> simpa using hla
    | tokenErr msg =>
      simp only [hcHandle]
      split_ifs <;> simpa using hla
    | disconnect => exact absurd rfl hne
    | resumeFire =>
      simp only [hcHandle]
      split_ifs <;> simpa using hla
  · intro s msg
    rw [hcStep, hcSettle_latched]
    simp only [hcHandle]
    split_ifs <;> rfl
  · intro s msg hcg hcd hpc hla
    have hh : hcHandle s (.tokenErr msg)
        = { s with error := some msg, mode := none, connecting := false } := by
      simp [hcHandle, hcg]
    constructor
    · rw [hcStep, hh]
      exact ⟨by simp, by simp [hcd], by simp [hpc], by simp [hla]⟩
    · intro hld
      rw [hcStep, hh]
      exact hcSettle_listening_true _ (by simp [hld]) rfl (by simp [hcd])
  · intro s hs es
    have h := hcStuck_run s hs es
    exact ⟨h.2, h.1⟩

/-- Witness for latch_persists_after_failure at the concrete failed run: the
latch stays set through the failure, the machine is stuck with listening
restarted, and firing further detections and timers issues no further token
request. -/
theorem latch_persists_after_failure_witness :
    (hcStep (hcRun [.loaded, .detect, .timerFire]) (.tokenErr "boom")).latched
        = (hcRun [.loaded, .detect, .timerFire]).latched
    ∧ HCStuck (hcStep (hcRun [.loaded, .detect, .timerFire]) (.tokenErr "boom"))
    ∧ (hcRunFrom (hcRun [.loaded, .detect, .timerFire, .tokenErr "boom"])
        [.detect, .timerFire, .detect]).tokenRequests
        = (hcRun [.loaded, .detect, .timerFire, .tokenErr "boom"]).tokenRequests :=
  ⟨latch_persists_after_failure.2.1 _ "boom",
   (latch_persists_after_failure.2.2.1 _ "boom"
      (by decide) (by decide) (by decide) (by decide)).1,
   (latch_persists_after_failure.2.2.2 _
      (by unfold HCStuck; decide) [.detect, .timerFire, .detect]).1⟩

/-- C1 (violation witness): the repository claims at most one per-frame loop
is ever scheduled, any start cancelling the other. Running the effect model
through attach, detach while the level is still above the decay threshold,
and re-attach leaves BOTH a fadeOut frame and an analyzeAudio frame pending:
the detach branch registers no cleanup, so the re-attach cancels nothing and
the two self-rescheduling loops accumulate. -/
theorem orb_duplicate_frames :
    ((orbRun 1 0 [.effect true [128], .effect false [], .effect true [128]]).pending.map
      Prod.snd) = [.fade, .analyze]
    ∧ 2 ≤ (orbRun 1 0
        [.effect true [128], .effect false [], .effect true [128]]).pending.length := by
  constructor <;>
    norm_num [orbRun, orbStep, effectRun, effectCleanup, runAnalyze, runFade, fireFrame,
      scheduleFrame, cancelFrame, analyzeStep, smootherStep, rawLevel, normalizedLevel,
      average, pushSample, fadeStep, orbInit, historySize]


end MagicMirror
